import Mathlib

/-!
Verification of the leave-management core (leave lifecycle engine) of the
simple-leave-management repository: a shallow embedding of the controllers
in `src/controllers/leave.controller.ts` and
`src/controllers/employee.controller.ts` together with the Mongoose models
(`employee.model.ts`, `leave.model.ts`), and proofs about the embedded
operations.

Calendar dates are modelled as integer day numbers: every date that the
controllers compare is a midnight-normalized `Date`, so `getTime` values
are exact multiples of `1000 * 3600 * 24` and order on dates coincides
with order on day numbers.
-/

namespace LeaveMgmt

/-- Status of a leave request, from the `LeaveStatus` enum of
`leave.model.ts` (values `Pending`, `Approved`, `Rejected`). -/
inductive LeaveStatus where
  | Pending
  | Approved
  | Rejected
deriving DecidableEq, Repr

/-- Employee record: the fields of `EmployeeSchema` that the leave
lifecycle reads and writes (`joiningDate`, `leaveAvailability`) plus its
identifier. -/
structure Employee where
  id : String
  joiningDate : Int
  leaveAvailability : Int
deriving DecidableEq, Repr

/-- Leave request document, from `LeaveSchema` of `leave.model.ts`. -/
structure LeaveReq where
  id : Nat
  employeId : String
  startDate : Int
  endDate : Int
  reason : String
  status : LeaveStatus
deriving DecidableEq, Repr

/-- Rejection taxonomy of the spec; each constructor corresponds to one
`ApiError` thrown by the controllers. -/
inductive RejectionReason where
  | MissingField
  | InvalidRange
  | PastDate
  | EmployeeNotFound
  | BeforeJoining
  | OverlapConflict
  | InsufficientBalance
  | InvalidStatus
  | LeaveNotFound
  | AlreadyProcessed
deriving DecidableEq, Repr

/-- Model of `Employee.findById` over the employee directory. -/
def findEmployee (emps : List Employee) (eid : String) : Option Employee :=
  emps.find? (fun emp => emp.id == eid)

/-- Model of `Leave.findById` over the leave ledger. -/
def findLeave (leaves : List LeaveReq) (lid : Nat) : Option LeaveReq :=
  leaves.find? (fun l => l.id == lid)

/-- The four-clause `$or` overlap test of `applyForLeave`
(leave.controller.ts lines 119-128), where `[a, b]` is the stored
(`startDate`, `endDate`) interval of an existing row and `[c, d]` is the
candidate range: row starts before and ends after the new start; row
starts before and ends after the new end; row contained in the new range;
row containing the new range. -/
def overlapCases (a b c d : Int) : Bool :=
  (decide (a ≤ c) && decide (b ≥ c)) ||
  (decide (a ≤ d) && decide (b ≥ d)) ||
  (decide (a ≥ c) && decide (b ≤ d)) ||
  (decide (a ≤ c) && decide (b ≥ d))

/-- Statuses counted as holding a reservation: the `$in: [Pending,
Approved]` filter of the conflict query. -/
def isActiveStatus (s : LeaveStatus) : Bool :=
  s == .Pending || s == .Approved

/-- Model of the `Leave.findOne` conflict query of `applyForLeave`: first
row of the same employee, active status, matching one of the four overlap
cases. -/
def findOverlappingLeave (leaves : List LeaveReq) (eid : String) (s e : Int) :
    Option LeaveReq :=
  leaves.find? (fun l =>
    l.employeId == eid && isActiveStatus l.status &&
      overlapCases l.startDate l.endDate s e)

/-- Milliseconds per day, the `1000 * 3600 * 24` divisor of the source. -/
def msPerDay : Int := 1000 * 3600 * 24

/-- Value of `getTime` for a midnight-normalized date with the given day
number. -/
def getTime (day : Int) : Int := day * msPerDay

/-- Leave duration as computed at submission time (leave.controller.ts
line 137): `(end.getTime() - start.getTime()) / (1000 * 3600 * 24) + 1`. -/
def leaveDurationSubmit (s e : Int) : Int :=
  (getTime e - getTime s) / msPerDay + 1

/-- Leave duration as recomputed at approval time (leave.controller.ts
lines 257-259), the same formula applied to the stored dates. -/
def leaveDurationApprove (s e : Int) : Int :=
  (getTime e - getTime s) / msPerDay + 1

/-- Request body of `applyForLeave`. Each field may be absent; the
JavaScript falsiness test also treats an empty string as missing. -/
structure SubmitReq where
  employeeId : Option String
  startDate : Option Int
  endDate : Option Int
  reason : Option String
deriving DecidableEq, Repr

/-- The submit validation pipeline of `applyForLeave`
(leave.controller.ts lines 78-141), with the checks in source order:
presence, date ordering, not-in-the-past, employee existence, employment
window, overlap, balance sufficiency. Returns the validated fields on
acceptance. -/
def validateSubmission (emps : List Employee) (leaves : List LeaveReq)
    (today : Int) (r : SubmitReq) :
    Except RejectionReason (String × Int × Int × String) :=
  match r.employeeId, r.startDate, r.endDate, r.reason with
  | some eid, some s, some e, some reason =>
    if eid = "" ∨ reason = "" then .error .MissingField
    else if s > e then .error .InvalidRange
    else if s < today then .error .PastDate
    else
      match findEmployee emps eid with
      | none => .error .EmployeeNotFound
      | some emp =>
        if s < emp.joiningDate then .error .BeforeJoining
        else if (findOverlappingLeave leaves eid s e).isSome then
          .error .OverlapConflict
        else if emp.leaveAvailability < leaveDurationSubmit s e then
          .error .InsufficientBalance
        else .ok (eid, s, e, reason)
  | _, _, _, _ => .error .MissingField

/-- System state: the employee directory, the leave ledger in insertion
order, and the identifier assigned to the next created leave document. -/
structure SysState where
  employees : List Employee
  leaves : List LeaveReq
  nextLeaveId : Nat
deriving DecidableEq, Repr

/-- Model of `applyForLeave`: run the validation pipeline and, on
acceptance, `Leave.create` a new row with default status `Pending`. On
rejection the controller throws and nothing is persisted. -/
def applyForLeave (st : SysState) (today : Int) (r : SubmitReq) :
    Except RejectionReason SysState :=
  match validateSubmission st.employees st.leaves today r with
  | .error rsn => .error rsn
  | .ok (eid, s, e, reason) =>
    .ok { st with
          leaves := st.leaves ++ [⟨st.nextLeaveId, eid, s, e, reason, .Pending⟩],
          nextLeaveId := st.nextLeaveId + 1 }

/-- Model of `employee.save()` after mutating `leaveAvailability`: the
stored document with that identifier now carries the new balance. -/
def saveEmployeeBalance (emps : List Employee) (eid : String) (v : Int) :
    List Employee :=
  emps.map (fun emp => if emp.id == eid then { emp with leaveAvailability := v } else emp)

/-- Model of `leave.save()` after mutating `status`. -/
def saveLeaveStatus (leaves : List LeaveReq) (lid : Nat) (s : LeaveStatus) :
    List LeaveReq :=
  leaves.map (fun l => if l.id == lid then { l with status := s } else l)

/-- Model of `updateLeaveStatus` (leave.controller.ts lines 223-278): the
requested status arrives as an arbitrary request-body value, modelled as
an optional string; checks in source order: status validity, leave
existence, terminal-state guard, then on approval the employee lookup,
balance re-check and deduction, and finally the status write. -/
def updateLeaveStatus (st : SysState) (lid : Nat) (status : Option String) :
    Except RejectionReason SysState :=
  if ¬ (status = some "Approved" ∨ status = some "Rejected") then
    .error .InvalidStatus
  else
    match findLeave st.leaves lid with
    | none => .error .LeaveNotFound
    | some leave =>
      if leave.status ≠ .Pending then .error .AlreadyProcessed
      else if status = some "Approved" then
        match findEmployee st.employees leave.employeId with
        | none => .error .EmployeeNotFound
        | some emp =>
          let dur := leaveDurationApprove leave.startDate leave.endDate
          if emp.leaveAvailability < dur then .error .InsufficientBalance
          else .ok { st with
                     employees := saveEmployeeBalance st.employees emp.id
                       (emp.leaveAvailability - dur),
                     leaves := saveLeaveStatus st.leaves lid .Approved }
      else
        .ok { st with leaves := saveLeaveStatus st.leaves lid .Rejected }

/-- One successful state-changing operation: a submit or a transition.
Failed calls throw before persisting anything, so they do not move the
state. The value of `today` may differ between steps. -/
inductive Step : SysState → SysState → Prop where
  | submit (today : Int) (r : SubmitReq) (st st' : SysState) :
      applyForLeave st today r = .ok st' → Step st st'
  | transition (lid : Nat) (status : Option String) (st st' : SysState) :
      updateLeaveStatus st lid status = .ok st' → Step st st'

/-- Initial state: any employee directory and an empty leave ledger. -/
def initialState (emps : List Employee) : SysState := ⟨emps, [], 0⟩

/-- States reachable from an initial state by sequences of successful
submit and transition operations. -/
def Reachable (emps : List Employee) (st : SysState) : Prop :=
  Relation.ReflTransGen Step (initialState emps) st

/-- Two inclusive day intervals of leave requests share at least one
calendar day. -/
def intervalsOverlap (l1 l2 : LeaveReq) : Prop :=
  l1.startDate ≤ l2.endDate ∧ l2.startDate ≤ l1.endDate

/-- Cross-entity invariant: for each employee, the requests with status in
`{Pending, Approved}` are pairwise non-overlapping. -/
def activeNonOverlapping (leaves : List LeaveReq) : Prop :=
  ∀ l1 ∈ leaves, ∀ l2 ∈ leaves,
    l1.id ≠ l2.id → l1.employeId = l2.employeId →
    isActiveStatus l1.status = true → isActiveStatus l2.status = true →
    ¬ intervalsOverlap l1 l2

/-- Well-formedness of a state: stored ranges are valid, stored
identifiers are below the counter and pairwise distinct, and the active
requests of each employee are pairwise non-overlapping. -/
def LedgerWF (st : SysState) : Prop :=
  (∀ l ∈ st.leaves, l.startDate ≤ l.endDate) ∧
  (∀ l ∈ st.leaves, l.id < st.nextLeaveId) ∧
  st.leaves.Pairwise (fun a b => a.id ≠ b.id) ∧
  activeNonOverlapping st.leaves

/-! Independent check predicates for the submission pipeline, used to state
that the pipeline reports the first failing check of the ordered list. -/

/-- Check 1, presence: all four body fields supplied (JavaScript falsiness
also rejects empty strings). -/
def presenceFails (r : SubmitReq) : Bool :=
  r.employeeId.isNone || r.startDate.isNone || r.endDate.isNone ||
  r.reason.isNone || (r.employeeId == some "") || (r.reason == some "")

/-- Check 2, date ordering: `start > end`. -/
def rangeInvalid (r : SubmitReq) : Bool :=
  match r.startDate, r.endDate with
  | some s, some e => decide (s > e)
  | _, _ => false

/-- Check 3, not in the past: `start < today` (today normalized to
midnight). -/
def startInPast (today : Int) (r : SubmitReq) : Bool :=
  match r.startDate with
  | some s => decide (s < today)
  | none => false

/-- Check 4, employee existence. -/
def employeeAbsent (emps : List Employee) (r : SubmitReq) : Bool :=
  match r.employeeId with
  | some eid => (findEmployee emps eid).isNone
  | none => false

/-- Check 5, employment window: `start < joiningDate`. -/
def startBeforeJoining (emps : List Employee) (r : SubmitReq) : Bool :=
  match r.employeeId, r.startDate with
  | some eid, some s =>
    match findEmployee emps eid with
    | some emp => decide (s < emp.joiningDate)
    | none => false
  | _, _ => false

/-- Check 6, overlap with an existing active request of the employee. -/
def overlapExists (leaves : List LeaveReq) (r : SubmitReq) : Bool :=
  match r.employeeId, r.startDate, r.endDate with
  | some eid, some s, some e => (findOverlappingLeave leaves eid s e).isSome
  | _, _, _ => false

/-- Check 7, balance sufficiency. -/
def balanceTooLow (emps : List Employee) (r : SubmitReq) : Bool :=
  match r.employeeId, r.startDate, r.endDate with
  | some eid, some s, some e =>
    match findEmployee emps eid with
    | some emp => decide (emp.leaveAvailability < leaveDurationSubmit s e)
    | none => false
  | _, _, _ => false

/-- The check list of the submission pipeline in the order claimed by the
spec, each paired with its rejection reason. -/
def submissionChecks (emps : List Employee) (leaves : List LeaveReq)
    (today : Int) (r : SubmitReq) : List (Bool × RejectionReason) :=
  [(presenceFails r, .MissingField),
   (rangeInvalid r, .InvalidRange),
   (startInPast today r, .PastDate),
   (employeeAbsent emps r, .EmployeeNotFound),
   (startBeforeJoining emps r, .BeforeJoining),
   (overlapExists leaves r, .OverlapConflict),
   (balanceTooLow emps r, .InsufficientBalance)]

/-- The reason of the first failing check of an ordered check list, if
any. -/
def firstFailure (checks : List (Bool × RejectionReason)) :
    Option RejectionReason :=
  (checks.find? (fun c => c.1)).map (fun c => c.2)

/-- The observable outcome of the validation pipeline: the rejection
reason, or acceptance. -/
def submissionOutcome
    (x : Except RejectionReason (String × Int × Int × String)) :
    Option RejectionReason :=
  match x with
  | .error rsn => some rsn
  | .ok _ => none

/-! Model of `getAllLeaves` (leave.controller.ts lines 355-391). -/

/-- Model of `parseInt(q) || d` on a query parameter: `none` stands for a
missing or non-numeric value (`parseInt` yields `NaN`, which is falsy); a
parsed `0` is falsy as well, so both fall back to the default, while every
other parsed integer — negative ones included — is kept. -/
def parseIntOr (d : Int) (q : Option Int) : Int :=
  match q with
  | none => d
  | some n => if n = 0 then d else n

/-- Effective page number: `parseInt(req.query.page) || 1`. -/
def effectivePage (q : Option Int) : Int := parseIntOr 1 q

/-- Effective page size: `parseInt(req.query.limit) || 9`. -/
def effectiveLimit (q : Option Int) : Int := parseIntOr 9 q

/-- String value of a stored status, as the enum values of the schema. -/
def statusToString : LeaveStatus → String
  | .Pending => "Pending"
  | .Approved => "Approved"
  | .Rejected => "Rejected"

/-- The status filter built at lines 363-366: applied only when the query
value is truthy and one of the three enum values; otherwise no filter. -/
def statusQueryFilter (q : Option String) : Option String :=
  match q with
  | none => none
  | some sq =>
    if sq = "Pending" ∨ sq = "Approved" ∨ sq = "Rejected" then some sq
    else none

/-- The `createdAt` value of a stored leave document. `LeaveSchema` in
`leave.model.ts` is declared without the `timestamps` schema option
(unlike `EmployeeSchema`), so no stored leave document carries a
`createdAt` field. -/
def leaveCreatedAt (_l : LeaveReq) : Option Int := none

/-- Descending comparison on the `createdAt` sort key used by
`.sort({ createdAt: -1 })`: a document may come before another when its
key is not smaller; a missing key behaves as null and compares equal to
another missing key. -/
def createdAtDescLE (a b : LeaveReq) : Bool :=
  match leaveCreatedAt a, leaveCreatedAt b with
  | some x, some y => decide (y ≤ x)
  | some _, none => true
  | none, some _ => false
  | none, none => true

/-- Stable insertion of a document into a list sorted by descending
`createdAt` key: the document goes before the first element it is not
obliged to follow, so elements with equal keys keep their original
relative order. -/
def insertDescStable (x : LeaveReq) : List LeaveReq → List LeaveReq
  | [] => [x]
  | y :: ys =>
    if createdAtDescLE x y then x :: y :: ys else y :: insertDescStable x ys

/-- The sort applied by `getAllLeaves`: a stable sort on the `createdAt`
key in descending order (MongoDB returns documents with equal sort keys in
their natural order). -/
def sortByCreatedAtDesc (ls : List LeaveReq) : List LeaveReq :=
  ls.foldr insertDescStable []

/-- The item list returned by `getAllLeaves`: filter, sort, then
`skip((page - 1) * limit)` and `limit(limit)`. -/
def getAllLeavesItems (ledger : List LeaveReq) (statusQ : Option String)
    (pageQ limitQ : Option Int) : List LeaveReq :=
  let page := effectivePage pageQ
  let limit := effectiveLimit limitQ
  let skip := (page - 1) * limit
  let filtered :=
    match statusQueryFilter statusQ with
    | none => ledger
    | some sq => ledger.filter (fun l => statusToString l.status == sq)
  ((sortByCreatedAtDesc filtered).drop skip.toNat).take limit.toNat

/-- Reported page count: `Math.ceil(totalDocuments / limit)` over exact
rational division. -/
def totalPages (totalDocuments : Nat) (limit : Int) : Int :=
  ⌈(totalDocuments : ℚ) / (limit : ℚ)⌉

/-! Model of the `leaveAvailability` guard of `createEmployee`
(employee.controller.ts lines 93-95). -/

/-- A JavaScript request-body value, as far as the guard inspects it: the
guard distinguishes `undefined`, numbers (with `Number.isInteger` telling
integral numbers apart), and everything else. Numbers are modelled as
exact rationals. -/
inductive JsValue where
  | undef
  | num (q : ℚ)
  | str (s : String)
  | other
deriving DecidableEq, Repr

/-- Model of `typeof v === number`. -/
def typeofNumber : JsValue → Bool
  | .num _ => true
  | _ => false

/-- Model of `Number.isInteger(v)` (false on non-numbers). -/
def numberIsInteger : JsValue → Bool
  | .num q => q.den == 1
  | _ => false

/-- Model of `v < 1` as evaluated on a number (only reached after the
`typeof` test in the short-circuit chain). -/
def jsLtOne : JsValue → Bool
  | .num q => decide (q < 1)
  | _ => false

/-- The guard of employee.controller.ts lines 93-95:
`leaveAvailability !== undefined && typeof leaveAvailability === number
&& Number.isInteger(leaveAvailability) && leaveAvailability < 1`. When
it holds, creation is rejected; otherwise the supplied value is passed
through to `EmployeeModel.create`. -/
def leaveAvailabilityRejected (v : JsValue) : Bool :=
  (v != .undef) && typeofNumber v && numberIsInteger v && jsLtOne v

/-- Decidable equality of `Except` results, for evaluating the model on
concrete inputs. -/
instance instDecEqExcept {ε α : Type} [DecidableEq ε] [DecidableEq α] :
    DecidableEq (Except ε α)
  | .error a, .error b => decidable_of_iff (a = b) (by simp)
  | .error _, .ok _ => isFalse (by simp)
  | .ok _, .error _ => isFalse (by simp)
  | .ok a, .ok b => decidable_of_iff (a = b) (by simp)

/-! Concrete example data used by counterexamples and witnesses. -/

/-- An employee directory with one employee: joined day 0, balance 40. -/
def exEmployee : Employee := ⟨"e1", 0, 40⟩

/-- A state holding one already-approved leave of that employee. -/
def exTerminalState : SysState :=
  ⟨[exEmployee], [⟨0, "e1", 0, 1, "trip", .Approved⟩], 1⟩

/-- A state holding one pending leave of duration 2 of that employee. -/
def exPendingState : SysState :=
  ⟨[exEmployee], [⟨0, "e1", 0, 1, "trip", .Pending⟩], 1⟩

/-- An employee joining at day 10 (in the future relative to day 5). -/
def exFutureEmployee : Employee := ⟨"e2", 10, 40⟩

/-- A leave document created first (inserted first into the ledger). -/
def exLeaveOlder : LeaveReq := ⟨0, "e1", 0, 1, "first", .Pending⟩

/-- A leave document created second (inserted second). -/
def exLeaveNewer : LeaveReq := ⟨1, "e1", 5, 6, "second", .Pending⟩

/-! Shared lemmas. -/

/-- For valid closed intervals, the four-clause test of the source is the
two-inequality intersection test. -/
theorem overlapCases_iff (a b c d : Int) (hab : a ≤ b) (hcd : c ≤ d) :
    overlapCases a b c d = true ↔ (a ≤ d ∧ c ≤ b) := by
  simp only [overlapCases, Bool.or_eq_true, Bool.and_eq_true,
    decide_eq_true_eq, ge_iff_le]
  omega

/-- The divisor of the duration formula is not zero. -/
theorem msPerDay_ne_zero : msPerDay ≠ 0 := by decide

/-- The submission-time duration formula computes the inclusive day
count. -/
theorem leaveDurationSubmit_eq (s e : Int) :
    leaveDurationSubmit s e = e - s + 1 := by
  unfold leaveDurationSubmit getTime
  rw [← sub_mul, Int.mul_ediv_cancel _ msPerDay_ne_zero]

/-! Claim theorems. -/

/-- C3: the four-case overlap disjunction of the code (existing row starts
before and ends after the new start; starts before and ends after the new
end; contained in the new interval; containing the new interval) is
equivalent, for all closed intervals `[a, b]` and `[c, d]` with `a ≤ b`
and `c ≤ d`, to the single inequality pair `a ≤ d` and `c ≤ b`. -/
theorem overlap_four_cases_equiv_pair (a b c d : Int)
    (hab : a ≤ b) (hcd : c ≤ d) :
    overlapCases a b c d = true ↔ (a ≤ d ∧ c ≤ b) :=
  overlapCases_iff a b c d hab hcd

/-- Witness for C3 at the intervals `[0, 2]` and `[1, 3]`. -/
theorem overlap_four_cases_equiv_pair_witness :
    (0 : Int) ≤ 2 ∧ (1 : Int) ≤ 3 ∧
    (overlapCases 0 2 1 3 = true ↔ ((0 : Int) ≤ 3 ∧ (1 : Int) ≤ 2)) :=
  ⟨by decide, by decide,
    overlap_four_cases_equiv_pair 0 2 1 3 (by decide) (by decide)⟩

/-- C5: the duration computed at submission time and the one recomputed at
approval time agree, both equal the inclusive day count
`(endDate - startDate in days) + 1`, and the value is at least 1 whenever
`startDate ≤ endDate`. -/
theorem duration_inclusive_days (s e : Int) :
    leaveDurationSubmit s e = leaveDurationApprove s e ∧
    leaveDurationSubmit s e = e - s + 1 ∧
    (s ≤ e → 1 ≤ leaveDurationSubmit s e) := by
  refine ⟨rfl, leaveDurationSubmit_eq s e, fun hle => ?_⟩
  rw [leaveDurationSubmit_eq s e]
  omega

/-- Witness for C5 at the range `[3, 5]`. -/
theorem duration_inclusive_days_witness :
    leaveDurationSubmit 3 5 = leaveDurationApprove 3 5 ∧
    leaveDurationSubmit 3 5 = 5 - 3 + 1 ∧
    (3 : Int) ≤ 5 ∧ 1 ≤ leaveDurationSubmit 3 5 :=
  ⟨(duration_inclusive_days 3 5).1, (duration_inclusive_days 3 5).2.1,
    by decide, (duration_inclusive_days 3 5).2.2 (by decide)⟩

/-- C10: the `leaveAvailability` guard of `createEmployee` rejects a
supplied value exactly when it is a number, that number is an integer,
and it is strictly below 1; every other value (non-integer numbers,
numeric strings, any non-number) passes the guard. -/
theorem createEmployee_leaveAvailability_guard (v : JsValue) :
    leaveAvailabilityRejected v = true ↔
      ∃ n : Int, n < 1 ∧ v = .num (n : ℚ) := by
  cases v with
  | undef =>
    simp [leaveAvailabilityRejected]
  | num q =>
    have hred : leaveAvailabilityRejected (.num q) =
        (q.den == 1 && decide (q < 1)) := rfl
    rw [hred]
    simp only [Bool.and_eq_true, beq_iff_eq, decide_eq_true_eq,
      JsValue.num.injEq]
    constructor
    · rintro ⟨hden, hlt⟩
      have hq : (q.num : ℚ) = q := (Rat.den_eq_one_iff q).mp hden
      refine ⟨q.num, ?_, hq.symm⟩
      have hlt2 : (q.num : ℚ) < 1 := by rw [hq]; exact hlt
      exact_mod_cast hlt2
    · rintro ⟨n, hn, rfl⟩
      exact ⟨Rat.den_intCast n, by exact_mod_cast hn⟩
  | str s =>
    simp [leaveAvailabilityRejected, typeofNumber]
  | other =>
    simp [leaveAvailabilityRejected, typeofNumber]

/-- C6 counterexample: on an already-approved request, a transition call
whose target status is `Pending` fails with `InvalidStatus`, not with
`AlreadyProcessed` — the status-validity check runs before the
terminal-state guard. -/
theorem terminal_invalid_target_counterexample :
    (findLeave exTerminalState.leaves 0).map LeaveReq.status =
      some .Approved ∧
    updateLeaveStatus exTerminalState 0 (some "Pending") =
      .error .InvalidStatus ∧
    updateLeaveStatus exTerminalState 0 (some "Pending") ≠
      .error .AlreadyProcessed := by
  refine ⟨by decide, by decide, by decide⟩

/-- C6 (amended): once a request is terminal (`Approved` or `Rejected`),
every transition call on it fails — with `AlreadyProcessed` whenever the
requested target status is valid (`Approved` or `Rejected`), and with
`InvalidStatus` otherwise — so the stored status and all balances are
never changed again (the model only changes state on a successful
call). -/
theorem terminal_state_never_transitions (st : SysState) (lid : Nat)
    (leave : LeaveReq) (status : Option String)
    (hfind : findLeave st.leaves lid = some leave)
    (hterm : leave.status ≠ .Pending) :
    (∃ rsn, updateLeaveStatus st lid status = .error rsn) ∧
    (status = some "Approved" ∨ status = some "Rejected" →
      updateLeaveStatus st lid status = .error .AlreadyProcessed) ∧
    (¬ (status = some "Approved" ∨ status = some "Rejected") →
      updateLeaveStatus st lid status = .error .InvalidStatus) := by
  unfold updateLeaveStatus
  by_cases hv : status = some "Approved" ∨ status = some "Rejected"
  · rw [if_neg (not_not_intro hv), hfind]
    dsimp only
    rw [if_pos hterm]
    exact ⟨⟨.AlreadyProcessed, rfl⟩, fun _ => rfl, fun h => absurd hv h⟩
  · rw [if_pos hv]
    exact ⟨⟨.InvalidStatus, rfl⟩, fun h => absurd h hv, fun _ => rfl⟩

/-- Witness for the amended C6: the approved request of the example state
cannot be approved again (`AlreadyProcessed`), and a transition on it with
the invalid target `Pending` fails with `InvalidStatus`. -/
theorem terminal_state_never_transitions_witness :
    findLeave exTerminalState.leaves 0 =
      some ⟨0, "e1", 0, 1, "trip", .Approved⟩ ∧
    (⟨0, "e1", 0, 1, "trip", .Approved⟩ : LeaveReq).status ≠ .Pending ∧
    updateLeaveStatus exTerminalState 0 (some "Approved") =
      .error .AlreadyProcessed ∧
    updateLeaveStatus exTerminalState 0 (some "Pending") =
      .error .InvalidStatus :=
  ⟨by decide, by decide,
    (terminal_state_never_transitions exTerminalState 0
      ⟨0, "e1", 0, 1, "trip", .Approved⟩ (some "Approved")
      (by decide) (by decide)).2.1 (Or.inl rfl),
    (terminal_state_never_transitions exTerminalState 0
      ⟨0, "e1", 0, 1, "trip", .Approved⟩ (some "Pending")
      (by decide) (by decide)).2.2 (by decide)⟩

/-- C7 counterexample: an existing employee joining at day 10, today day
5, and a submission for day 0 (before joining, and with no existing leave
at all) is rejected with `PastDate`, not `BeforeJoining`: the past-date
check runs before the employment-window check. -/
theorem before_joining_counterexample :
    findEmployee [exFutureEmployee] "e2" = some exFutureEmployee ∧
    (0 : Int) < exFutureEmployee.joiningDate ∧
    validateSubmission [exFutureEmployee] [] 5
      ⟨some "e2", some 0, some 0, some "x"⟩ = .error .PastDate ∧
    validateSubmission [exFutureEmployee] [] 5
      ⟨some "e2", some 0, some 0, some "x"⟩ ≠ .error .BeforeJoining := by
  refine ⟨by decide, by decide, by decide, by decide⟩

/-- C7 (amended): a submission by an existing employee whose start date
lies strictly before the joining date is never accepted, whatever the
ledger contains; and whenever the earlier pipeline stages pass (fields
present and non-empty, `start ≤ end`, `start` not in the past) it is
rejected precisely with `BeforeJoining`, even if the range overlaps no
existing leave of that employee. -/
theorem before_joining_always_rejected (emps : List Employee)
    (leaves : List LeaveReq) (today : Int) (r : SubmitReq)
    (eid : String) (s e : Int) (reason : String) (emp : Employee)
    (hid : r.employeeId = some eid) (hs : r.startDate = some s)
    (he : r.endDate = some e) (hr : r.reason = some reason)
    (hemp : findEmployee emps eid = some emp)
    (hj : s < emp.joiningDate) :
    (∀ v, validateSubmission emps leaves today r ≠ .ok v) ∧
    (eid ≠ "" → reason ≠ "" → s ≤ e → today ≤ s →
      validateSubmission emps leaves today r = .error .BeforeJoining) := by
  unfold validateSubmission
  rw [hid, hs, he, hr]
  simp only [hemp]
  constructor
  · intro v hv
    split_ifs at hv
  · intro h1 h2 h3 h4
    rw [if_neg (by tauto), if_neg (by omega), if_neg (by omega),
      if_pos hj]

/-- Witness for the amended C7: a future joiner (day 10), today day 5,
submitting `[6, 7]` with an empty ledger is rejected with
`BeforeJoining`. -/
theorem before_joining_always_rejected_witness :
    findEmployee [exFutureEmployee] "e2" = some exFutureEmployee ∧
    (6 : Int) < exFutureEmployee.joiningDate ∧
    ((∀ v, validateSubmission [exFutureEmployee] [] 5
        ⟨some "e2", some 6, some 7, some "x"⟩ ≠ .ok v) ∧
     ("e2" ≠ "" → "x" ≠ "" → (6 : Int) ≤ 7 → (5 : Int) ≤ 6 →
       validateSubmission [exFutureEmployee] [] 5
         ⟨some "e2", some 6, some 7, some "x"⟩ =
           .error .BeforeJoining)) :=
  ⟨by decide, by decide,
    before_joining_always_rejected [exFutureEmployee] [] 5
      ⟨some "e2", some 6, some 7, some "x"⟩ "e2" 6 7 "x" exFutureEmployee
      rfl rfl rfl rfl (by decide) (by decide)⟩

/-- C8 counterexample: a page parameter that parses to a negative integer
is kept as-is, not replaced by the default 1 (`parseInt("-3") || 1`
evaluates to `-3`); likewise for the limit parameter. -/
theorem pagination_negative_counterexample :
    effectivePage (some (-3)) = -3 ∧ effectivePage (some (-3)) ≠ 1 ∧
    effectiveLimit (some (-2)) = -2 ∧ effectiveLimit (some (-2)) ≠ 9 := by
  refine ⟨rfl, by decide, rfl, by decide⟩

/-- C8 (amended): missing, non-numeric and zero page and limit parameters
fall back to the defaults 1 and 9, while any other parsed integer —
negative values included — is used as-is; a status filter outside the
three valid status values is ignored; and for a positive limit the
reported page count is the ceiling of `totalCount / limit` (the least
integer `c` with `totalCount ≤ c * limit`). -/
theorem list_parameter_handling (pq lq : Option Int) (sq : String)
    (n : Nat) (l : Int) :
    (effectivePage pq = 1 ↔ pq = none ∨ pq = some 0 ∨ pq = some 1) ∧
    (effectiveLimit lq = 9 ↔ lq = none ∨ lq = some 0 ∨ lq = some 9) ∧
    (∀ k : Int, k ≠ 0 →
      effectivePage (some k) = k ∧ effectiveLimit (some k) = k) ∧
    (sq ≠ "Pending" → sq ≠ "Approved" → sq ≠ "Rejected" →
      statusQueryFilter (some sq) = none) ∧
    (0 < l →
      (totalPages n l - 1) * l < n ∧ (n : Int) ≤ totalPages n l * l) := by
  refine ⟨?_, ?_, ?_, ?_, ?_⟩
  · cases pq with
    | none => simp [effectivePage, parseIntOr]
    | some k =>
      by_cases hk : k = 0
      · subst hk
        simp [effectivePage, parseIntOr]
      · simp only [effectivePage, parseIntOr, if_neg hk,
          Option.some.injEq]
        constructor
        · intro h; exact Or.inr (Or.inr h)
        · rintro (h | h | h)
          · exact Option.noConfusion h
          · exact absurd h hk
          · exact h
  · cases lq with
    | none => simp [effectiveLimit, parseIntOr]
    | some k =>
      by_cases hk : k = 0
      · subst hk
        simp [effectiveLimit, parseIntOr]
      · simp only [effectiveLimit, parseIntOr, if_neg hk,
          Option.some.injEq]
        constructor
        · intro h; exact Or.inr (Or.inr h)
        · rintro (h | h | h)
          · exact Option.noConfusion h
          · exact absurd h hk
          · exact h
  · intro k hk
    exact ⟨by simp [effectivePage, parseIntOr, hk],
      by simp [effectiveLimit, parseIntOr, hk]⟩
  · intro hp ha hr
    simp [statusQueryFilter, hp, ha, hr]
  · intro hl
    have hlq : (0 : ℚ) < (l : ℚ) := by exact_mod_cast hl
    constructor
    · have hceil : (↑(totalPages n l) : ℚ) < (n : ℚ) / (l : ℚ) + 1 := by
        unfold totalPages
        exact_mod_cast Int.ceil_lt_add_one ((n : ℚ) / (l : ℚ))
      have h2 : ((totalPages n l - 1 : Int) : ℚ) < (n : ℚ) / (l : ℚ) := by
        push_cast
        linarith
      have h3 : ((totalPages n l - 1 : Int) : ℚ) * (l : ℚ) < (n : ℚ) :=
        (lt_div_iff₀ hlq).mp h2
      exact_mod_cast h3
    · have hle : (n : ℚ) / (l : ℚ) ≤ ((totalPages n l : Int) : ℚ) := by
        unfold totalPages
        exact_mod_cast Int.le_ceil ((n : ℚ) / (l : ℚ))
      have h2 : (n : ℚ) ≤ ((totalPages n l : Int) : ℚ) * (l : ℚ) :=
        (div_le_iff₀ hlq).mp hle
      exact_mod_cast h2

/-- Witness for the amended C8: parameter `0` defaults, status `Bogus` is
ignored, and for 10 documents at limit 9 the page count bounds hold. -/
theorem list_parameter_handling_witness :
    (effectivePage (some 0) = 1 ↔
      (some 0 : Option Int) = none ∨ (some 0 : Option Int) = some 0 ∨
        (some 0 : Option Int) = some 1) ∧
    statusQueryFilter (some "Bogus") = none ∧
    ((totalPages 10 9 - 1) * 9 < 10 ∧ (10 : Int) ≤ totalPages 10 9 * 9) :=
  ⟨(list_parameter_handling (some 0) (some 0) "Bogus" 10 9).1,
   (list_parameter_handling (some 0) (some 0) "Bogus" 10 9).2.2.2.1
     (by decide) (by decide) (by decide),
   (list_parameter_handling (some 0) (some 0) "Bogus" 10 9).2.2.2.2
     (by decide)⟩

/-- C9 (code bug in the source): `getAllLeaves` sorts on `createdAt`, but
`LeaveSchema` is declared without the `timestamps` option, so no leave
document carries a `createdAt` field; all sort keys are missing and
compare equal, and the listing comes back in ledger (insertion) order.
With two leaves created in sequence, the first-created document is
returned first — not creation time descending, which would put the
most recently created document first. -/
theorem getAllLeaves_not_creation_descending :
    (∀ l : LeaveReq, leaveCreatedAt l = none) ∧
    getAllLeavesItems [exLeaveOlder, exLeaveNewer] none none none =
      [exLeaveOlder, exLeaveNewer] ∧
    [exLeaveOlder, exLeaveNewer] ≠ [exLeaveNewer, exLeaveOlder] := by
  refine ⟨fun l => rfl, by decide, by decide⟩

/-- C2: the submission pipeline reports exactly the reason of the first
failing check of the ordered list — presence (`MissingField`), date
ordering (`InvalidRange`), past date (`PastDate`), employee existence
(`EmployeeNotFound`), employment window (`BeforeJoining`), overlap
(`OverlapConflict`), balance (`InsufficientBalance`) — and accepts iff no
check fails; a later check never determines the outcome once an earlier
one fails. -/
theorem submit_checks_in_order (emps : List Employee)
    (leaves : List LeaveReq) (today : Int) (r : SubmitReq) :
    submissionOutcome (validateSubmission emps leaves today r) =
      firstFailure (submissionChecks emps leaves today r) := by
  obtain ⟨eidq, sq, eq2, rq⟩ := r
  cases eidq with
  | none =>
    simp [validateSubmission, submissionOutcome, submissionChecks,
      firstFailure, presenceFails, List.find?]
  | some eid =>
  cases sq with
  | none =>
    simp [validateSubmission, submissionOutcome, submissionChecks,
      firstFailure, presenceFails, List.find?]
  | some s =>
  cases eq2 with
  | none =>
    simp [validateSubmission, submissionOutcome, submissionChecks,
      firstFailure, presenceFails, List.find?]
  | some e =>
  cases rq with
  | none =>
    simp [validateSubmission, submissionOutcome, submissionChecks,
      firstFailure, presenceFails, List.find?]
  | some reason =>
  by_cases h1 : eid = "" ∨ reason = ""
  · have hb1 : presenceFails ⟨some eid, some s, some e, some reason⟩ = true := by
      rcases h1 with h | h <;> simp [presenceFails, h]
    simp [validateSubmission, submissionOutcome, submissionChecks,
      firstFailure, List.find?, hb1, h1]
  · have hb1 : presenceFails ⟨some eid, some s, some e, some reason⟩ = false := by
      push_neg at h1
      simp [presenceFails, h1.1, h1.2]
    by_cases h2 : s > e
    · have hb2 : rangeInvalid ⟨some eid, some s, some e, some reason⟩ = true := by
        simp [rangeInvalid, h2]
      simp [validateSubmission, submissionOutcome, submissionChecks,
        firstFailure, List.find?, hb1, hb2, h1, h2]
    · have hb2 : rangeInvalid ⟨some eid, some s, some e, some reason⟩ = false := by
        simp [rangeInvalid, h2]
      by_cases h3 : s < today
      · have hb3 : startInPast today ⟨some eid, some s, some e, some reason⟩ = true := by
          simp [startInPast, h3]
        simp [validateSubmission, submissionOutcome, submissionChecks,
          firstFailure, List.find?, hb1, hb2, hb3, h1, h2, h3]
      · have hb3 : startInPast today ⟨some eid, some s, some e, some reason⟩ = false := by
          simp [startInPast, h3]
        cases hemp : findEmployee emps eid with
        | none =>
          have hb4 : employeeAbsent emps ⟨some eid, some s, some e, some reason⟩ = true := by
            simp [employeeAbsent, hemp]
          simp [validateSubmission, submissionOutcome, submissionChecks,
            firstFailure, List.find?, hb1, hb2, hb3, hb4, h1, h2, h3, hemp]
        | some emp =>
          have hb4 : employeeAbsent emps ⟨some eid, some s, some e, some reason⟩ = false := by
            simp [employeeAbsent, hemp]
          by_cases h5 : s < emp.joiningDate
          · have hb5 : startBeforeJoining emps ⟨some eid, some s, some e, some reason⟩ = true := by
              simp [startBeforeJoining, hemp, h5]
            simp [validateSubmission, submissionOutcome, submissionChecks,
              firstFailure, List.find?, hb1, hb2, hb3, hb4, hb5,
              h1, h2, h3, hemp, h5]
          · have hb5 : startBeforeJoining emps ⟨some eid, some s, some e, some reason⟩ = false := by
              simp [startBeforeJoining, hemp, h5]
            by_cases h6 : (findOverlappingLeave leaves eid s e).isSome = true
            · have hb6 : overlapExists leaves ⟨some eid, some s, some e, some reason⟩ = true := h6
              simp [validateSubmission, submissionOutcome, submissionChecks,
                firstFailure, List.find?, hb1, hb2, hb3, hb4, hb5, hb6,
                h1, h2, h3, hemp, h5, h6]
            · have hb6 : overlapExists leaves ⟨some eid, some s, some e, some reason⟩ = false :=
                Bool.eq_false_iff.mpr h6
              by_cases h7 : emp.leaveAvailability < leaveDurationSubmit s e
              · have hb7 : balanceTooLow emps ⟨some eid, some s, some e, some reason⟩ = true := by
                  simp [balanceTooLow, hemp, h7]
                simp [validateSubmission, submissionOutcome, submissionChecks,
                  firstFailure, List.find?, hb1, hb2, hb3, hb4, hb5, hb6, hb7,
                  h1, h2, h3, hemp, h5, h6, h7]
              · have hb7 : balanceTooLow emps ⟨some eid, some s, some e, some reason⟩ = false := by
                  simp [balanceTooLow, hemp, h7]
                simp [validateSubmission, submissionOutcome, submissionChecks,
                  firstFailure, List.find?, hb1, hb2, hb3, hb4, hb5, hb6, hb7,
                  h1, h2, h3, hemp, h5, h6, h7]

/-- Saving a new balance for an employee changes exactly the balance field
of the document found under that identifier. -/
theorem findEmployee_saveEmployeeBalance (emps : List Employee)
    (eid : String) (v : Int) :
    findEmployee (saveEmployeeBalance emps eid v) eid =
      (findEmployee emps eid).map
        (fun emp => { emp with leaveAvailability := v }) := by
  induction emps with
  | nil => rfl
  | cons a t ih =>
    show List.find? (fun emp => emp.id == eid)
        ((if a.id == eid then { a with leaveAvailability := v } else a)
          :: saveEmployeeBalance t eid v) =
      (List.find? (fun emp => emp.id == eid) (a :: t)).map
        (fun emp => { emp with leaveAvailability := v })
    by_cases h : a.id = eid
    · rw [if_pos (by simpa using h)]
      rw [List.find?_cons_of_pos _ (by simpa using h)]
      rw [List.find?_cons_of_pos _ (by simpa using h)]
      rfl
    · rw [if_neg (by simpa using h)]
      rw [List.find?_cons_of_neg _ (by simpa using h)]
      rw [List.find?_cons_of_neg _ (by simpa using h)]
      exact ih

/-- C4: a transition on a pending request that approves it and succeeds
leaves the owning employee with exactly the old balance minus the
recomputed duration, and that new balance is never negative (the balance
guard makes the negative outcome unreachable); a transition that rejects
the request leaves the employee directory untouched. -/
theorem approval_deducts_rejection_preserves (st : SysState) (lid : Nat)
    (leave : LeaveReq)
    (hfind : findLeave st.leaves lid = some leave)
    (hp : leave.status = .Pending) :
    (∀ st', updateLeaveStatus st lid (some "Approved") = .ok st' →
      ∃ emp, findEmployee st.employees leave.employeId = some emp ∧
        findEmployee st'.employees leave.employeId =
          some { emp with leaveAvailability :=
            emp.leaveAvailability -
              leaveDurationApprove leave.startDate leave.endDate } ∧
        0 ≤ emp.leaveAvailability -
              leaveDurationApprove leave.startDate leave.endDate) ∧
    (∀ st', updateLeaveStatus st lid (some "Rejected") = .ok st' →
      st'.employees = st.employees) := by
  constructor
  · intro st' h
    unfold updateLeaveStatus at h
    rw [if_neg (not_not_intro (Or.inl rfl)), hfind] at h
    dsimp only at h
    rw [if_neg (not_not_intro hp), if_pos rfl] at h
    cases hemp : findEmployee st.employees leave.employeId with
    | none =>
      rw [hemp] at h
      exact Except.noConfusion h
    | some emp =>
      rw [hemp] at h
      dsimp only at h
      by_cases hbal : emp.leaveAvailability <
          leaveDurationApprove leave.startDate leave.endDate
      · rw [if_pos hbal] at h
        exact Except.noConfusion h
      · rw [if_neg hbal] at h
        have hst : st' = { st with
            employees := saveEmployeeBalance st.employees emp.id
              (emp.leaveAvailability -
                leaveDurationApprove leave.startDate leave.endDate),
            leaves := saveLeaveStatus st.leaves lid .Approved } :=
          (Except.ok.inj h).symm
        have hid : emp.id = leave.employeId := by
          have hpred := List.find?_some hemp
          exact eq_of_beq hpred
        have hemp2 : findEmployee st.employees emp.id = some emp := by
          rw [hid]
          exact hemp
        refine ⟨emp, rfl, ?_, by omega⟩
        rw [hst]
        show findEmployee
          (saveEmployeeBalance st.employees emp.id _) leave.employeId = _
        rw [← hid, findEmployee_saveEmployeeBalance, hemp2]
        rfl
  · intro st' h
    unfold updateLeaveStatus at h
    rw [if_neg (not_not_intro (Or.inr rfl)), hfind] at h
    dsimp only at h
    rw [if_neg (not_not_intro hp), if_neg (by simp)] at h
    have hst : st' = { st with
        leaves := saveLeaveStatus st.leaves lid .Rejected } :=
      (Except.ok.inj h).symm
    rw [hst]

/-- Witness for C4 at the example state with one pending two-day leave and
a balance of 40. -/
theorem approval_deducts_rejection_preserves_witness :
    findLeave exPendingState.leaves 0 =
      some ⟨0, "e1", 0, 1, "trip", .Pending⟩ ∧
    (⟨0, "e1", 0, 1, "trip", .Pending⟩ : LeaveReq).status = .Pending ∧
    ((∀ st', updateLeaveStatus exPendingState 0 (some "Approved") =
        .ok st' →
      ∃ emp, findEmployee exPendingState.employees "e1" = some emp ∧
        findEmployee st'.employees "e1" =
          some { emp with leaveAvailability :=
            emp.leaveAvailability - leaveDurationApprove 0 1 } ∧
        0 ≤ emp.leaveAvailability - leaveDurationApprove 0 1) ∧
     (∀ st', updateLeaveStatus exPendingState 0 (some "Rejected") =
        .ok st' → st'.employees = exPendingState.employees)) :=
  ⟨by decide, rfl,
    approval_deducts_rejection_preserves exPendingState 0
      ⟨0, "e1", 0, 1, "trip", .Pending⟩ (by decide) rfl⟩

/-- Inversion of a successful submission: the accepted range is valid and
the conflict query found nothing. -/
theorem validateSubmission_ok_facts {emps : List Employee}
    {leaves : List LeaveReq} {today : Int} {r : SubmitReq}
    {eid : String} {s e : Int} {reason : String}
    (h : validateSubmission emps leaves today r = .ok (eid, s, e, reason)) :
    s ≤ e ∧ findOverlappingLeave leaves eid s e = none := by
  obtain ⟨eidq, sq, eq2, rq⟩ := r
  cases eidq with
  | none => exact Except.noConfusion h
  | some eid0 =>
  cases sq with
  | none => exact Except.noConfusion h
  | some s0 =>
  cases eq2 with
  | none => exact Except.noConfusion h
  | some e0 =>
  cases rq with
  | none => exact Except.noConfusion h
  | some reason0 =>
  unfold validateSubmission at h
  dsimp only at h
  cases hemp : findEmployee emps eid0 with
  | none =>
    simp only [hemp] at h
    split_ifs at h
  | some emp =>
    simp only [hemp] at h
    split_ifs at h with h1 h2 h3 h4 h5 h6
    obtain ⟨he, hs, he2, hr⟩ : eid0 = eid ∧ s0 = s ∧ e0 = e ∧
        reason0 = reason := by
      have h7 := Except.ok.inj h
      simpa [Prod.ext_iff] using h7
    subst he
    subst hs
    subst he2
    subst hr
    exact ⟨by omega, Option.not_isSome_iff_eq_none.mp h5⟩

/-- In a ledger with pairwise distinct identifiers, two members with the
same identifier are the same row. -/
theorem mem_of_id_unique {leaves : List LeaveReq}
    (hpw : leaves.Pairwise (fun a b => a.id ≠ b.id))
    {l1 l2 : LeaveReq} (h1 : l1 ∈ leaves) (h2 : l2 ∈ leaves)
    (hid : l1.id = l2.id) : l1 = l2 := by
  by_contra hne
  have hsym : Symmetric (fun a b : LeaveReq => a.id ≠ b.id) :=
    fun a b hab heq => hab heq.symm
  exact List.Pairwise.forall hsym hpw h1 h2 hne hid

/-- The initial state is well-formed. -/
theorem initialState_wf (emps : List Employee) :
    LedgerWF (initialState emps) := by
  refine ⟨?_, ?_, ?_, ?_⟩
  · intro l hl
    exact absurd hl (List.not_mem_nil l)
  · intro l hl
    exact absurd hl (List.not_mem_nil l)
  · exact List.Pairwise.nil
  · intro l1 hl1
    exact absurd hl1 (List.not_mem_nil l1)

/-- A successful submission preserves well-formedness: the new row has a
valid range, a fresh identifier, and no overlap with the active rows of
its employee (by the conflict query). -/
theorem submit_wf (st st' : SysState) (today : Int) (r : SubmitReq)
    (h : applyForLeave st today r = .ok st') (hwf : LedgerWF st) :
    LedgerWF st' := by
  unfold applyForLeave at h
  cases hv : validateSubmission st.employees st.leaves today r with
  | error rsn =>
    rw [hv] at h
    exact Except.noConfusion h
  | ok tup =>
    rw [hv] at h
    obtain ⟨eid, s, e, reason⟩ := tup
    dsimp only at h
    have hst : st' = { st with
        leaves := st.leaves ++
          [⟨st.nextLeaveId, eid, s, e, reason, .Pending⟩],
        nextLeaveId := st.nextLeaveId + 1 } := (Except.ok.inj h).symm
    obtain ⟨hrange, hoverlap⟩ := validateSubmission_ok_facts hv
    obtain ⟨hwf1, hwf2, hwf3, hwf4⟩ := hwf
    have hnone := List.find?_eq_none.mp hoverlap
    subst hst
    refine ⟨?_, ?_, ?_, ?_⟩
    · intro l hl
      rcases List.mem_append.mp hl with h1 | h1
      · exact hwf1 l h1
      · simp only [List.mem_singleton] at h1
        subst h1
        exact hrange
    · intro l hl
      rcases List.mem_append.mp hl with h1 | h1
      · exact Nat.lt_succ_of_lt (hwf2 l h1)
      · simp only [List.mem_singleton] at h1
        subst h1
        exact Nat.lt_succ_self _
    · rw [List.pairwise_append]
      refine ⟨hwf3, List.pairwise_singleton _ _, ?_⟩
      intro a ha b hb
      simp only [List.mem_singleton] at hb
      subst hb
      exact Nat.ne_of_lt (hwf2 a ha)
    · intro l1 hl1 l2 hl2 hid hemp hact1 hact2
      rcases List.mem_append.mp hl1 with m1 | m1 <;>
        rcases List.mem_append.mp hl2 with m2 | m2
      · exact hwf4 l1 m1 l2 m2 hid hemp hact1 hact2
      · simp only [List.mem_singleton] at m2
        subst m2
        intro hov
        apply hnone l1 m1
        simp only [Bool.and_eq_true, beq_iff_eq]
        refine ⟨⟨hemp, hact1⟩, ?_⟩
        rw [overlapCases_iff _ _ _ _ (hwf1 l1 m1) hrange]
        exact hov
      · simp only [List.mem_singleton] at m1
        subst m1
        intro hov
        apply hnone l2 m2
        simp only [Bool.and_eq_true, beq_iff_eq]
        refine ⟨⟨hemp.symm, hact2⟩, ?_⟩
        rw [overlapCases_iff _ _ _ _ (hwf1 l2 m2) hrange]
        exact ⟨hov.2, hov.1⟩
      · simp only [List.mem_singleton] at m1 m2
        subst m1
        subst m2
        exact absurd rfl hid

/-- Writing a terminal status into the row found under `lid` preserves
well-formedness, whatever happens to the employee directory. -/
theorem saveStatus_wf (st : SysState) (lid : Nat) (newSt : LeaveStatus)
    (leave : LeaveReq) (hfind : findLeave st.leaves lid = some leave)
    (hpend : leave.status = .Pending)
    (_hnew : newSt = .Approved ∨ newSt = .Rejected)
    (hwf : LedgerWF st) (emps2 : List Employee) :
    LedgerWF ⟨emps2, saveLeaveStatus st.leaves lid newSt, st.nextLeaveId⟩ := by
  obtain ⟨hwf1, hwf2, hwf3, hwf4⟩ := hwf
  have hfind2 : List.find? (fun l => l.id == lid) st.leaves = some leave :=
    hfind
  have hmemleave : leave ∈ st.leaves := List.mem_of_find?_eq_some hfind2
  have hbeq := List.find?_some hfind2
  have hleaveid : leave.id = lid := by simpa using hbeq
  have hfields : ∀ l : LeaveReq,
      (if l.id == lid then { l with status := newSt } else l).id = l.id ∧
      (if l.id == lid then { l with status := newSt } else l).startDate =
        l.startDate ∧
      (if l.id == lid then { l with status := newSt } else l).endDate =
        l.endDate ∧
      (if l.id == lid then { l with status := newSt } else l).employeId =
        l.employeId := by
    intro l
    by_cases hb : (l.id == lid) = true
    · rw [if_pos hb]
      exact ⟨rfl, rfl, rfl, rfl⟩
    · rw [if_neg hb]
      exact ⟨rfl, rfl, rfl, rfl⟩
  have hactive : ∀ l ∈ st.leaves,
      isActiveStatus (if l.id == lid then { l with status := newSt }
        else l).status = true → isActiveStatus l.status = true := by
    intro l hl hact
    by_cases hb : (l.id == lid) = true
    · have hlid : l.id = lid := eq_of_beq hb
      have hleq : l = leave :=
        mem_of_id_unique hwf3 hl hmemleave (by rw [hlid, hleaveid])
      rw [hleq, hpend]
      rfl
    · rw [if_neg hb] at hact
      exact hact
  refine ⟨?_, ?_, ?_, ?_⟩
  · intro l hl
    obtain ⟨l0, hl0, rfl⟩ := List.mem_map.mp hl
    rw [(hfields l0).2.1, (hfields l0).2.2.1]
    exact hwf1 l0 hl0
  · intro l hl
    obtain ⟨l0, hl0, rfl⟩ := List.mem_map.mp hl
    rw [(hfields l0).1]
    exact hwf2 l0 hl0
  · show List.Pairwise (fun a b => a.id ≠ b.id)
      (st.leaves.map
        (fun l => if l.id == lid then { l with status := newSt } else l))
    rw [List.pairwise_map]
    refine List.Pairwise.imp ?_ hwf3
    intro a b hab
    rw [(hfields a).1, (hfields b).1]
    exact hab
  · intro x1 hx1 x2 hx2 hid hemp hact1 hact2
    obtain ⟨l1, hl1, rfl⟩ := List.mem_map.mp hx1
    obtain ⟨l2, hl2, rfl⟩ := List.mem_map.mp hx2
    rw [(hfields l1).1, (hfields l2).1] at hid
    rw [(hfields l1).2.2.2, (hfields l2).2.2.2] at hemp
    have hov := hwf4 l1 hl1 l2 hl2 hid hemp (hactive l1 hl1 hact1)
      (hactive l2 hl2 hact2)
    intro hcon
    apply hov
    unfold intervalsOverlap at hcon ⊢
    rw [(hfields l1).2.1, (hfields l1).2.2.1, (hfields l2).2.1,
      (hfields l2).2.2.1] at hcon
    exact hcon

/-- A successful transition preserves well-formedness. -/
theorem transition_wf (st st' : SysState) (lid : Nat)
    (status : Option String)
    (h : updateLeaveStatus st lid status = .ok st') (hwf : LedgerWF st) :
    LedgerWF st' := by
  unfold updateLeaveStatus at h
  by_cases hv : status = some "Approved" ∨ status = some "Rejected"
  · rw [if_neg (not_not_intro hv)] at h
    cases hfind : findLeave st.leaves lid with
    | none =>
      rw [hfind] at h
      exact Except.noConfusion h
    | some leave =>
      rw [hfind] at h
      dsimp only at h
      by_cases hpend : leave.status = .Pending
      · rw [if_neg (not_not_intro hpend)] at h
        by_cases happ : status = some "Approved"
        · rw [if_pos happ] at h
          cases hemp : findEmployee st.employees leave.employeId with
          | none =>
            rw [hemp] at h
            exact Except.noConfusion h
          | some emp =>
            rw [hemp] at h
            dsimp only at h
            by_cases hbal : emp.leaveAvailability <
                leaveDurationApprove leave.startDate leave.endDate
            · rw [if_pos hbal] at h
              exact Except.noConfusion h
            · rw [if_neg hbal] at h
              have hst := (Except.ok.inj h).symm
              subst hst
              exact saveStatus_wf st lid .Approved leave hfind hpend
                (Or.inl rfl) ⟨hwf.1, hwf.2.1, hwf.2.2.1, hwf.2.2.2⟩ _
        · rw [if_neg happ] at h
          have hst := (Except.ok.inj h).symm
          subst hst
          exact saveStatus_wf st lid .Rejected leave hfind hpend
            (Or.inr rfl) ⟨hwf.1, hwf.2.1, hwf.2.2.1, hwf.2.2.2⟩ _
      · rw [if_pos hpend] at h
        exact Except.noConfusion h
  · rw [if_pos hv] at h
    exact Except.noConfusion h

/-- Every state reachable by successful submits and transitions is
well-formed. -/
theorem reachable_wf (emps : List Employee) (st : SysState)
    (h : Reachable emps st) : LedgerWF st := by
  unfold Reachable at h
  induction h with
  | refl => exact initialState_wf emps
  | tail hsteps hstep ih =>
    cases hstep with
    | submit today r _ _ heq => exact submit_wf _ _ today r heq ih
    | transition lid status _ _ heq =>
      exact transition_wf _ _ lid status heq ih

/-- C1: in every state reachable by any sequence of successful submit and
transition operations from an initial state with an empty ledger, the
leave requests of each employee with status in `{Pending, Approved}` are
pairwise non-overlapping in their inclusive date ranges. -/
theorem active_leaves_pairwise_nonoverlapping (emps : List Employee)
    (st : SysState) (h : Reachable emps st) :
    activeNonOverlapping st.leaves :=
  (reachable_wf emps st h).2.2.2

/-- Witness for C1: the state reached by one successful submission from
the example directory satisfies the invariant. -/
theorem active_leaves_pairwise_nonoverlapping_witness :
    Reachable [exEmployee] exPendingState ∧
    activeNonOverlapping exPendingState.leaves := by
  have hstep : applyForLeave (initialState [exEmployee]) 0
      ⟨some "e1", some 0, some 1, some "trip"⟩ = .ok exPendingState := by
    decide
  have hreach : Reachable [exEmployee] exPendingState :=
    Relation.ReflTransGen.tail Relation.ReflTransGen.refl
      (Step.submit 0 ⟨some "e1", some 0, some 1, some "trip"⟩
        (initialState [exEmployee]) exPendingState hstep)
  exact ⟨hreach,
    active_leaves_pairwise_nonoverlapping [exEmployee] exPendingState
      hreach⟩

end LeaveMgmt
